import Mathlib

/-!
Shallow embedding of the cover-letter generation pipeline
(`cover-letter-generator`): prompt assembly, generation-client response
handling, retry policy, output post-processing, reachability probe and
output folder naming.  Strings are modelled as `String` / `List Char`,
JavaScript numbers as `Nat`, promises that resolve or reject as
`Except`.  The HTTP transport and `JSON.parse` belong to the runtime,
not to the repository; the response they deliver is therefore an
explicit argument of the embedded functions.
-/

set_option maxRecDepth 20000

namespace JobSearcher

/-- Character class of JavaScript regular-expression white space (the
white-space set used by `trim`, `trimEnd` and the `s`-class in the
source's regular expressions): ASCII blanks, NBSP, BOM and the Unicode
space separators. -/
def jsWhitespace (c : Char) : Bool :=
  c = ' ' || c = '\t' || c = '\n' || c = '\r' ||
  c.toNat = 11 || c.toNat = 12 || c.toNat = 160 || c.toNat = 5760 ||
  (8192 ≤ c.toNat && c.toNat ≤ 8202) || c.toNat = 8232 || c.toNat = 8233 ||
  c.toNat = 8239 || c.toNat = 8287 || c.toNat = 12288 || c.toNat = 65279

/-- JavaScript word-character class (the `w`-class): ASCII letters, digits
and underscore. -/
def wordChar (c : Char) : Bool :=
  ('a' ≤ c && c ≤ 'z') || ('A' ≤ c && c ≤ 'Z') || ('0' ≤ c && c ≤ '9') || c = '_'

/-- Drop leading JavaScript white space (`String.prototype.trimStart`). -/
def trimStartL (l : List Char) : List Char := l.dropWhile jsWhitespace

/-- Drop trailing JavaScript white space (`String.prototype.trimEnd`). -/
def trimEndL (l : List Char) : List Char := (l.reverse.dropWhile jsWhitespace).reverse

/-- JavaScript `String.prototype.trim` on character lists. -/
def trimL (l : List Char) : List Char := trimStartL (trimEndL l)

/-- JavaScript `String.prototype.trim`. -/
def jsTrim (s : String) : String := String.mk (trimL s.data)

/-- Boolean prefix test on character lists. -/
def startsWith : List Char → List Char → Bool
  | _, [] => true
  | [], _ :: _ => false
  | c :: t, p :: q => c = p && startsWith t q

/-- Boolean substring test, as JavaScript `String.prototype.includes`. -/
def containsSub : List Char → List Char → Bool
  | [], pat => pat.isEmpty
  | c :: t, pat => startsWith (c :: t) pat || containsSub t pat

/-- Fuel-driven worker for global literal replacement; the fuel is an upper
bound on the number of scanning steps (one character is consumed per step,
at least, so the length of the subject suffices). -/
def replaceAllGo (pat rep : List Char) : Nat → List Char → List Char
  | _, [] => []
  | 0, l => l
  | f + 1, c :: t =>
    if startsWith (c :: t) pat then
      rep ++ replaceAllGo pat rep f (t.drop (pat.length - 1))
    else
      c :: replaceAllGo pat rep f t

/-- Global replacement of a literal pattern, with the replacement value
inserted verbatim.  This embeds
`template.replace(new RegExp(pattern, g-flag), () => value)` from
`buildPromptFromTemplate`: the pattern text contains no special
characters, and a replacer function is used, so both the pattern and the
replacement act literally. -/
def jsReplaceAll (l pat rep : List Char) : List Char := replaceAllGo pat rep l.length l

/-- Maximal-run collapsing worker: `k` counts the newlines of the current
run already seen; inside one run only the first two newlines are kept.
This embeds `text.replace(per-source regex matching runs of three or more
newlines, two newlines)`: every maximal run of three or more newlines
becomes exactly two, shorter runs are unchanged. -/
def collapseGo : Nat → List Char → List Char
  | _, [] => []
  | k, c :: t =>
    if c = '\n' then
      if k < 2 then '\n' :: collapseGo (k + 1) t else collapseGo (k + 1) t
    else
      c :: collapseGo 0 t

/-- Collapse every run of three or more newlines to exactly two. -/
def collapseNewlines (l : List Char) : List Char := collapseGo 0 l

/-- Tail test of the fence pattern under the multiline flag: from this
position, white space may be consumed until an end of line (a newline
character) or the end of the input is reached. -/
def fenceTail : List Char → Bool
  | [] => true
  | c :: t => if c = '\n' then true else if jsWhitespace c then fenceTail t else false

/-- Does a closing fence start here: three backticks whose tail matches
the end-of-line test? -/
def closeFenceHere : List Char → Bool
  | '`' :: '`' :: '`' :: rest => fenceTail rest
  | _ => false

/-- Lazy scan for the first closing fence position (the non-greedy group of
the source regex grows one character at a time); `acc` holds the group
content read so far, in reverse. -/
def findCloseGo : Nat → List Char → List Char → Option (List Char)
  | _, _, [] => none
  | 0, _, _ => none
  | f + 1, acc, c :: t =>
    if closeFenceHere (c :: t) then some acc.reverse
    else findCloseGo f (c :: acc) t

/-- Try the fence pattern at the current position (which must be a line
start): three backticks, a greedy run of word characters (the optional
language tag), an optional newline, then the lazily matched group up to
the first closing fence with a valid tail. -/
def matchFenceAt (l : List Char) : Option (List Char) :=
  match l with
  | '`' :: '`' :: '`' :: rest =>
    let afterTag := rest.dropWhile wordChar
    let afterNl := match afterTag with
      | '\n' :: t => t
      | other => other
    findCloseGo (afterNl.length + 1) [] afterNl
  | _ => none

/-- Skip to the position just after the next newline; `none` when no
further line start exists. -/
def skipLine : List Char → Option (List Char)
  | [] => none
  | c :: t => if c = '\n' then some t else skipLine t

/-- Search the leftmost line start at which the fence pattern matches,
returning the captured group.  This embeds `text.match(codeFence)` for the
source's anchored multiline fence regex: anchors, under the multiline
flag, restrict candidate positions to line starts. -/
def fenceSearch : Nat → List Char → Option (List Char)
  | 0, _ => none
  | f + 1, l =>
    match matchFenceAt l with
    | some g => some g
    | none =>
      match skipLine l with
      | some t => fenceSearch f t
      | none => none

/-- First fence match of the whole text. -/
def fenceMatch (l : List Char) : Option (List Char) := fenceSearch (l.length + 1) l

/-- Post-processing of a raw model answer that is a string: trim, strip the
matched fence wrapper (keeping the trimmed group), collapse newline runs,
then trim the end and append one newline when the collapsed text is
non-empty. -/
def postProcessString (raw : String) : String :=
  let t0 := trimL raw.data
  let t1 := match fenceMatch t0 with
    | some g => trimL g
    | none => t0
  let t2 := collapseNewlines t1
  String.mk (trimEndL t2 ++ (if t2 = [] then [] else ['\n']))

/-- The source `postProcessCoverLetterText`; `none` models any JavaScript
argument that is not a string, which yields the empty string. -/
def postProcessCoverLetterText : Option String → String
  | none => ""
  | some s => postProcessString s

/-- Outcome of one backend call, indexed by the attempt number; models
`callOllamaGenerate` resolving with text or rejecting with an error. -/
def GenOracle (E A : Type) := Nat → Except E A

/-- Retry worker: run the attempt with the given index; while fuel remains,
a failure moves to the next attempt; the final attempt's outcome (success
or the last error) is surfaced.  The second component counts the backend
calls made. -/
def retryFrom (gen : Nat → Except E A) (attempt : Nat) : Nat → Except E A × Nat
  | 0 => (gen attempt, 1)
  | f + 1 =>
    match gen attempt with
    | Except.ok a => (Except.ok a, 1)
    | Except.error _ =>
      let p := retryFrom gen (attempt + 1) f
      (p.1, p.2 + 1)

/-- The source `callOllamaGenerateWithRetry`: `maxAttempts` is
`max 1 (retryAttempts + 1)`, attempts run from 1 to `maxAttempts`, the
first success returns, and when every attempt fails the last error is
thrown. -/
def callOllamaGenerateWithRetry (gen : Nat → Except E A) (retryAttempts : Nat) :
    Except E A × Nat :=
  retryFrom gen 1 (max 1 (retryAttempts + 1) - 1)

/-- Error message built by `callOllamaGenerate` for a non-200 status: the
status code, a 300-character excerpt of the body, and — for a 404 whose
body mentions "not found" — a hint to pull the model or change
`OLLAMA_MODEL`. -/
def genErrorMessage (model : String) (status : Nat) (raw : String) : String :=
  let base := "Ollama /api/generate returned " ++ toString status ++ ": " ++
    String.mk (raw.data.take 300)
  if status = 404 && containsSub raw.data ("not found".data) then
    base ++ "\nPull a model first, e.g.: ollama pull " ++ model ++
      ". Or set OLLAMA_MODEL to a model you have."
  else base

/-- Outcome of `JSON.parse` on the response body, a runtime primitive: a
parse failure with its message, or a parsed object whose `response` field
is either missing/null (`none`) or a string. -/
inductive ParsedBody where
  | failure (errMessage : String)
  | success (response : Option String)

/-- Response handling of the source `callOllamaGenerate`, given the status
code and body delivered by the HTTP runtime and the `JSON.parse` outcome
for that body: a non-200 status rejects with `genErrorMessage`; otherwise
a parse failure rejects with an invalid-JSON error, and a parsed body
resolves with the trimmed `response` field, or empty text when the field
is missing. -/
def callOllamaGenerate (model : String) (status : Nat) (raw : String)
    (parsed : ParsedBody) : Except String String :=
  if status ≠ 200 then Except.error (genErrorMessage model status raw)
  else
    match parsed with
    | ParsedBody.failure e => Except.error ("Ollama returned invalid JSON: " ++ e)
    | ParsedBody.success (some s) => Except.ok (jsTrim s)
    | ParsedBody.success none => Except.ok ""

/-- Event that settles the reachability probe's promise: an HTTP response
with a status code, a connection error, or a timeout. -/
inductive ProbeOutcome where
  | response (status : Nat)
  | connectionError
  | timedOut

/-- The source `isOllamaRunning`: resolves with
`statusCode = 200 or statusCode < 500` on a response, and with `false` on
a connection error or timeout (the promise never rejects). -/
def isOllamaRunning : ProbeOutcome → Bool
  | ProbeOutcome.response s => s == 200 || decide (s < 500)
  | ProbeOutcome.connectionError => false
  | ProbeOutcome.timedOut => false

/-- Components of the current date as read from the JavaScript `Date`
getters, with `month` already 1-based as in the source
(`getMonth() + 1`). -/
structure DateParts where
  year : Nat
  month : Nat
  day : Nat

/-- JavaScript `padStart(2, zero-digit)`. -/
def padStart2 (s : String) : String :=
  if s.length < 2 then String.mk (List.replicate (2 - s.length) '0') ++ s else s

/-- JavaScript `slice(-2)`: the last two characters (the whole string when
shorter). -/
def sliceLastTwo (s : String) : String := String.mk (s.data.drop (s.length - 2))

/-- JavaScript `s or-else fallback` on strings: the empty string is falsy. -/
def fallbackIfEmpty (s fallback : String) : String := if s = "" then fallback else s

/-- Company slug of the source naming policy: fall back to a literal
company token when blank, strip all white space, strip every character
outside the word/hyphen classes, and fall back again when nothing is
left. -/
def companySlug (company : String) : String :=
  let c := fallbackIfEmpty company "Company"
  let stripped := (c.data.filter (fun ch => !jsWhitespace ch)).filter
    (fun ch => wordChar ch || ch = '-')
  fallbackIfEmpty (String.mk stripped) "Company"

/-- The source `generateOutputFolderName`: date part from the current
date, trimmed last name with an `Applicant` fallback, `CL` marker, and
the company slug. -/
def generateOutputFolderName (now : DateParts) (company lastName : String) : String :=
  let yy := sliceLastTwo (toString now.year)
  let mm := padStart2 (toString now.month)
  let dd := padStart2 (toString now.day)
  let datePart := yy ++ mm ++ dd
  let ln := fallbackIfEmpty (jsTrim lastName) "Applicant"
  datePart ++ "." ++ ln ++ ".CL." ++ companySlug company

/-- Job record fields used by the prompt assembler (absent fields are the
empty string, as the source normalizes them with or-else). -/
structure Job where
  company : String
  positionName : String
  location : String
  type : String
  description : String

/-- Generation context fields (absent fields are the empty string). -/
structure GenContext where
  applicantName : String
  resumeSnippet : String
  sampleCoverLetter : String

/-- The default prompt template written by `ensurePromptFileExists`
(`DEFAULT_PROMPT_TEMPLATE` in the source). -/
def DEFAULT_PROMPT_TEMPLATE : String :=
  "You are a professional cover letter writer. Write a concise, tailored cover letter for the following job application. Use a formal but warm tone. Do not invent qualifications; align the letter with the candidate's background when provided.\n" ++
  "\n" ++
  "Company: \x7b\x7bcompany\x7d\x7d\n" ++
  "Role: \x7b\x7bpositionName\x7d\x7d\n" ++
  "Location: \x7b\x7blocation\x7d\x7d\n" ++
  "Job type: \x7b\x7btype\x7d\x7d\n" ++
  "\n" ++
  "Job description:\n" ++
  "---\n" ++
  "\x7b\x7bdescription\x7d\x7d\n" ++
  "---\n" ++
  "\n" ++
  "Applicant context (use only if provided):\n" ++
  "\x7b\x7bapplicantName\x7d\x7d\n" ++
  "\x7b\x7bresumeSnippet\x7d\x7d\n" ++
  "\n" ++
  "\x7b\x7bcoverLetterSection\x7d\x7d\n" ++
  "\n" ++
  "Instructions:\n" ++
  "- Address the letter to the hiring team or \"Hiring Manager\" if no name is given.\n" ++
  "- Open with a short paragraph stating the role and company you are applying to.\n" ++
  "- In one or two paragraphs, connect your experience and motivation to the role and company (use resume/context above if provided).\n" ++
  "- Close with a brief sign-off (e.g. \"Yours sincerely\") followed by a placeholder for the applicant's name: [Your full name] or the applicant name if provided.\n" ++
  "- Keep the letter to one page when possible (roughly 250–400 words).\n" ++
  "- Output only the cover letter text, no meta-commentary or markdown.\n" ++
  "\n" ++
  "Cover letter:\n"

/-- Placeholder pattern for a template variable: the key between double
braces. -/
def placeholder (key : String) : List Char :=
  "\x7b\x7b".data ++ key.data ++ "\x7d\x7d".data

/-- The source `buildPromptFromTemplate`, with the template file content
as an explicit argument: truncate the description to 12000 and the resume
snippet to 3000 characters, build the optional sample-letter section,
then substitute the eight template variables in source order. -/
def buildPromptFromTemplate (template : String) (job : Job) (context : GenContext) :
    String :=
  let description := String.mk (job.description.data.take 12000)
  let resumeSnippet := String.mk (context.resumeSnippet.data.take 3000)
  let applicantName := context.applicantName
  let sampleCoverLetter := jsTrim context.sampleCoverLetter
  let coverLetterSection :=
    if sampleCoverLetter ≠ "" then
      "Use the following cover letter as an example to base your tone, format and content off:\n\n---\n" ++
        sampleCoverLetter ++ "\n---\n\n"
    else ""
  let vars : List (String × String) :=
    [("company", job.company), ("positionName", job.positionName),
     ("location", job.location), ("type", job.type),
     ("description", description),
     ("applicantName", fallbackIfEmpty applicantName "(Not provided)"),
     ("resumeSnippet", fallbackIfEmpty resumeSnippet "(Not provided)"),
     ("coverLetterSection", coverLetterSection)]
  String.mk (vars.foldl
    (fun acc kv => jsReplaceAll acc (placeholder kv.1) kv.2.data) template.data)

/-- A job record with every field blank. -/
def jobBlank : Job := ⟨"", "", "", "", ""⟩

/-- A context whose resume snippet is 3001 copies of one letter. -/
def ctxLongResume : GenContext := ⟨"", String.mk (List.replicate 3001 'Z'), ""⟩

/-- A job whose description carries dollar signs and the replacement-pattern
tokens of JavaScript `String.replace`. -/
def jobDollar : Job := ⟨"", "", "", "", "Pay: $100k with $& and $1 kept."⟩

/-- A context with every field blank. -/
def ctxBlank : GenContext := ⟨"", "", ""⟩

/-! Helper lemmas about lists, substrings and the embedded scanners. -/

theorem midSub (a b c : List Char) : b <:+: a ++ b ++ c := ⟨a, c, rfl⟩

theorem subExtR {x y : List Char} (z : List Char) (h : x <:+: y) : x <:+: y ++ z := by
  obtain ⟨s, t, hst⟩ := h
  exact ⟨s, t ++ z, by rw [← hst]; simp [List.append_assoc]⟩

theorem subTail {x y : List Char} (c : Char) (h : x <:+: y) : x <:+: c :: y := by
  obtain ⟨s, t, hst⟩ := h
  exact ⟨c :: s, t, by rw [← hst]; rfl⟩

theorem toDigitsCore_len_mono (b : Nat) :
    ∀ f n l, l.length ≤ (Nat.toDigitsCore b f n l).length := by
  intro f
  induction f with
  | zero => intro n l; exact Nat.le_refl _
  | succ f ih =>
    intro n l
    show l.length ≤ (if n / b = 0 then Nat.digitChar (n % b) :: l
      else Nat.toDigitsCore b f (n / b) (Nat.digitChar (n % b) :: l)).length
    split
    · simp
    · exact le_trans (by simp) (ih (n / b) (Nat.digitChar (n % b) :: l))

theorem toDigitsCore_len_succ (b : Nat) :
    ∀ f n l, 1 ≤ f → l.length + 1 ≤ (Nat.toDigitsCore b f n l).length := by
  intro f
  induction f with
  | zero => intro n l h; omega
  | succ f _ =>
    intro n l _
    show l.length + 1 ≤ (if n / b = 0 then Nat.digitChar (n % b) :: l
      else Nat.toDigitsCore b f (n / b) (Nat.digitChar (n % b) :: l)).length
    split
    · simp
    · simpa using toDigitsCore_len_mono b f (n / b) (Nat.digitChar (n % b) :: l)

theorem repr_len_ge_two {n : Nat} (h : 10 ≤ n) : 2 ≤ (toString n).length := by
  show 2 ≤ (Nat.toDigits 10 n).length
  have hstep : Nat.toDigits 10 n =
      if n / 10 = 0 then [Nat.digitChar (n % 10)]
      else Nat.toDigitsCore 10 n (n / 10) [Nat.digitChar (n % 10)] := rfl
  rw [hstep]
  have hne : ¬ n / 10 = 0 := by omega
  rw [if_neg hne]
  simpa using toDigitsCore_len_succ 10 n (n / 10) [Nat.digitChar (n % 10)] (by omega)

theorem companySlug_chars (company : String) :
    ∀ ch ∈ (companySlug company).data,
      jsWhitespace ch = false ∧ (wordChar ch || ch = '-') = true := by
  intro ch hch
  have hCompany : ∀ c ∈ ("Company").data,
      jsWhitespace c = false ∧ (wordChar c || c = '-') = true := by decide
  have key : ∀ (s : String) (c : Char),
      c ∈ (fallbackIfEmpty (String.mk ((s.data.filter (fun x => !jsWhitespace x)).filter
            (fun x => wordChar x || x = '-'))) "Company").data →
      jsWhitespace c = false ∧ (wordChar c || c = '-') = true := by
    intro s c h
    unfold fallbackIfEmpty at h
    split at h
    · exact hCompany c h
    · have h1 := List.mem_filter.mp h
      have h2 := List.mem_filter.mp h1.1
      exact ⟨by simpa using h2.2, h1.2⟩
  exact key (fallbackIfEmpty company "Company") ch hch

theorem retryFrom_count_le {E A : Type} (gen : Nat → Except E A) :
    ∀ f a, (retryFrom gen a f).2 ≤ f + 1 := by
  intro f
  induction f with
  | zero => intro a; simp [retryFrom]
  | succ f ih =>
    intro a
    simp only [retryFrom]
    cases gen a with
    | ok v => simp
    | error e => simpa using Nat.succ_le_succ (ih (a + 1))

theorem retryFrom_all_fail {E A : Type} (gen : Nat → Except E A) :
    ∀ f a, (∀ i, a ≤ i → i ≤ a + f → ∃ e, gen i = Except.error e) →
      ∃ e, gen (a + f) = Except.error e ∧ retryFrom gen a f = (Except.error e, f + 1) := by
  intro f
  induction f with
  | zero =>
    intro a h
    obtain ⟨e, he⟩ := h a (Nat.le_refl a) (Nat.le_add_right a 0)
    exact ⟨e, by simpa using he, by simp [retryFrom, he]⟩
  | succ f ih =>
    intro a h
    obtain ⟨e0, he0⟩ := h a (Nat.le_refl a) (Nat.le_add_right a (f + 1))
    obtain ⟨e, he, hr⟩ := ih (a + 1) (fun i h1 h2 => h i (Nat.le_of_succ_le h1) (by omega))
    refine ⟨e, by rw [show a + (f + 1) = a + 1 + f by omega]; exact he, ?_⟩
    simp [retryFrom, he0, hr]

theorem withRetry_eq (gen : Nat → Except E A) (n : Nat) :
    callOllamaGenerateWithRetry gen n = retryFrom gen 1 n := by
  have h : max 1 (n + 1) = n + 1 := Nat.max_eq_right (Nat.le_add_left 1 n)
  simp [callOllamaGenerateWithRetry, h]

theorem startsWith_iff : ∀ (p l : List Char), startsWith l p = true ↔ p <+: l := by
  intro p
  induction p with
  | nil => intro l; cases l <;> simp [startsWith]
  | cons ph pt ih =>
    intro l
    cases l with
    | nil => simp [startsWith]
    | cons c t =>
      rw [List.cons_prefix_cons]
      show (decide (c = ph) && startsWith t pt) = true ↔ _
      rw [Bool.and_eq_true, decide_eq_true_eq, ih t]
      exact ⟨fun h => ⟨h.1.symm, h.2⟩, fun h => ⟨h.1.symm, h.2⟩⟩

theorem infix_cons_cases {x : List Char} {c : Char} {t : List Char}
    (h : x <:+: c :: t) : x <+: c :: t ∨ x <:+: t := by
  obtain ⟨s, u, hsu⟩ := h
  cases s with
  | nil => exact Or.inl ⟨u, by simpa using hsu⟩
  | cons a s' =>
    have : a = c ∧ s' ++ x ++ u = t := by
      have := hsu
      simp only [List.cons_append] at this
      exact ⟨List.head_eq_of_cons_eq this, List.tail_eq_of_cons_eq this⟩
    exact Or.inr ⟨s', u, this.2⟩

theorem replaceAllGo_nil (pat rep : List Char) : ∀ f, replaceAllGo pat rep f [] = [] := by
  intro f; cases f <;> rfl

theorem replaceAllGo_rep_sub (pat rep : List Char) (hp : pat ≠ []) :
    ∀ f l, l.length ≤ f → pat <:+: l → rep <:+: replaceAllGo pat rep f l := by
  intro f
  induction f with
  | zero =>
    intro l hl hin
    have : l = [] := List.eq_nil_of_length_eq_zero (Nat.le_zero.mp hl)
    subst this
    exact absurd (List.eq_nil_of_infix_nil hin) hp
  | succ f ih =>
    intro l hl hin
    cases l with
    | nil => exact absurd (List.eq_nil_of_infix_nil hin) hp
    | cons c t =>
      show rep <:+: (if startsWith (c :: t) pat then
          rep ++ replaceAllGo pat rep f (t.drop (pat.length - 1))
        else c :: replaceAllGo pat rep f t)
      by_cases hs : startsWith (c :: t) pat = true
      · rw [if_pos hs]
        exact ⟨[], replaceAllGo pat rep f (t.drop (pat.length - 1)), by simp⟩
      · rw [if_neg (by simpa using hs)]
        rcases infix_cons_cases hin with hpre | hinf
        · exact absurd ((startsWith_iff pat (c :: t)).mpr hpre) hs
        · exact subTail c (ih t (by simpa using Nat.le_of_succ_le_succ hl) hinf)

theorem startsWith_refl : ∀ l : List Char, startsWith l l = true := by
  intro l
  induction l with
  | nil => rfl
  | cons c t ih => show (decide (c = c) && startsWith t t) = true; simp [ih]

theorem replaceAll_self (pat rep : List Char) (hp : pat ≠ []) :
    jsReplaceAll pat pat rep = rep := by
  cases pat with
  | nil => exact absurd rfl hp
  | cons c t =>
    show replaceAllGo (c :: t) rep (t.length + 1) (c :: t) = rep
    have hs : startsWith (c :: t) (c :: t) = true := startsWith_refl (c :: t)
    show (if startsWith (c :: t) (c :: t) then
        rep ++ replaceAllGo (c :: t) rep t.length (t.drop ((c :: t).length - 1))
      else c :: replaceAllGo (c :: t) rep t.length t) = rep
    rw [if_pos hs]
    have hd : t.drop ((c :: t).length - 1) = [] := by
      simp [List.drop_length]
    rw [hd, replaceAllGo_nil]
    simp

theorem replaceAllGo_no_head (p0 : Char) (pt rep : List Char) :
    ∀ f l, (∀ c ∈ l, c ≠ p0) → replaceAllGo (p0 :: pt) rep f l = l := by
  intro f
  induction f with
  | zero => intro l _; cases l <;> rfl
  | succ f ih =>
    intro l hl
    cases l with
    | nil => rfl
    | cons c t =>
      have hc : c ≠ p0 := hl c (List.mem_cons_self c t)
      show (if startsWith (c :: t) (p0 :: pt) then
          rep ++ replaceAllGo (p0 :: pt) rep f (t.drop ((p0 :: pt).length - 1))
        else c :: replaceAllGo (p0 :: pt) rep f t) = c :: t
      have hs : startsWith (c :: t) (p0 :: pt) = false := by
        show (decide (c = p0) && startsWith t pt) = false
        simp [hc]
      rw [if_neg (by simp [hs])]
      rw [ih t (fun x hx => hl x (List.mem_cons_of_mem c hx))]

theorem data_mk (l : List Char) : (String.mk l).data = l := rfl

/-! Claim theorems. -/

/-- C2: `callOllamaGenerateWithRetry` with zero retries calls the backend
exactly once and surfaces that call's outcome; with `n` retries it makes at
most `n + 1` calls; a first-call success returns after one call; a
first-call failure followed by a second-call success yields the second
call's result with exactly two calls; and when every attempt fails the
error of the last attempt (attempt `n + 1`) is surfaced. -/
theorem C2_retry_policy :
    ∀ (gen : Nat → Except String String) (n : Nat),
      callOllamaGenerateWithRetry gen 0 = (gen 1, 1)
      ∧ (callOllamaGenerateWithRetry gen n).2 ≤ n + 1
      ∧ (∀ a, gen 1 = Except.ok a → callOllamaGenerateWithRetry gen n = (Except.ok a, 1))
      ∧ (∀ e a, 1 ≤ n → gen 1 = Except.error e → gen 2 = Except.ok a →
          callOllamaGenerateWithRetry gen n = (Except.ok a, 2))
      ∧ ((∀ i, 1 ≤ i → i ≤ n + 1 → ∃ e, gen i = Except.error e) →
          ∃ e, gen (n + 1) = Except.error e
            ∧ callOllamaGenerateWithRetry gen n = (Except.error e, n + 1)) := by
  intro gen n
  refine ⟨by simp [withRetry_eq, retryFrom], ?_, ?_, ?_, ?_⟩
  · rw [withRetry_eq]; exact retryFrom_count_le gen n 1
  · intro a ha
    rw [withRetry_eq]
    cases n with
    | zero => simp [retryFrom, ha]
    | succ f => simp [retryFrom, ha]
  · intro e a hn h1 h2
    rw [withRetry_eq]
    obtain ⟨f, rfl⟩ : ∃ f, n = f + 1 := ⟨n - 1, by omega⟩
    cases f with
    | zero => simp [retryFrom, h1, h2]
    | succ f => simp [retryFrom, h1, h2]
  · intro h
    rw [withRetry_eq]
    obtain ⟨e, he, hr⟩ := retryFrom_all_fail gen n 1
      (fun i h1 h2 => h i h1 (by omega))
    exact ⟨e, by rw [show n + 1 = 1 + n by omega]; exact he, hr⟩

/-- C2 witness: with one configured retry, fail-then-succeed yields the
second call's result and two calls, and two failing attempts surface the
last error after two calls. -/
theorem C2_retry_policy_witness :
    callOllamaGenerateWithRetry
        (fun i => if i = 1 then (Except.error "boom" : Except String String)
          else Except.ok "hi") 1 = (Except.ok "hi", 2)
    ∧ callOllamaGenerateWithRetry
        (fun _ => (Except.error "boom" : Except String String)) 1 =
        (Except.error "boom", 2) := by
  constructor
  · exact (C2_retry_policy _ 1).2.2.2.1 "boom" "hi" (by omega) (by simp) (by simp)
  · obtain ⟨e, he, hr⟩ := (C2_retry_policy
      (fun _ => (Except.error "boom" : Except String String)) 1).2.2.2.2
      (fun i _ _ => ⟨"boom", rfl⟩)
    have : e = "boom" := by simpa using he.symm
    simpa [this] using hr

/-- C5: on a 200 status, `callOllamaGenerate` returns the parsed body's
`response` field trimmed of surrounding white space, returns empty text
when the field is absent, and rejects with an invalid-JSON error when the
body does not parse; a body whose `response` field is "  Hi.  " yields
"Hi.". -/
theorem C5_generate_success :
    ∀ (model raw : String),
      (∀ s, callOllamaGenerate model 200 raw (ParsedBody.success (some s)) =
        Except.ok (jsTrim s))
      ∧ callOllamaGenerate model 200 raw (ParsedBody.success none) = Except.ok ""
      ∧ (∀ e, ∃ msg,
          callOllamaGenerate model 200 raw (ParsedBody.failure e) = Except.error msg
          ∧ "invalid JSON".data <:+: msg.data)
      ∧ callOllamaGenerate model 200 raw (ParsedBody.success (some "  Hi.  ")) =
        Except.ok "Hi." := by
  intro model raw
  refine ⟨fun s => by simp [callOllamaGenerate], by simp [callOllamaGenerate],
    fun e => ⟨"Ollama returned invalid JSON: " ++ e, by simp [callOllamaGenerate], ?_⟩,
    by simp [callOllamaGenerate]; decide⟩
  have h : "invalid JSON".data <:+: ("Ollama returned invalid JSON: ").data := by decide
  simpa [String.data_append] using subExtR e.data h

/-- C6: on a non-200 status, `callOllamaGenerate` rejects with a message
containing the status code and an excerpt of at most 300 characters of the
body; for a 404 whose body contains "not found" the message also carries
the remediation hint naming `ollama pull` and `OLLAMA_MODEL`. -/
theorem C6_generate_error :
    ∀ (model raw : String) (status : Nat) (parsed : ParsedBody), status ≠ 200 →
      ∃ msg, callOllamaGenerate model status raw parsed = Except.error msg
        ∧ (toString status).data <:+: msg.data
        ∧ raw.data.take 300 <:+: msg.data
        ∧ (raw.data.take 300).length ≤ 300
        ∧ (status = 404 → containsSub raw.data ("not found".data) = true →
            ("Pull a model first, e.g.: ollama pull " ++ model ++
              ". Or set OLLAMA_MODEL to a model you have.").data <:+: msg.data) := by
  intro model raw status parsed h
  refine ⟨genErrorMessage model status raw, by simp [callOllamaGenerate, h], ?_, ?_, ?_, ?_⟩
  · have hbase : (toString status).data <:+:
        ("Ollama /api/generate returned " ++ toString status ++ ": " ++
          String.mk (raw.data.take 300)).data := by
      simp only [String.data_append, List.append_assoc]
      exact ⟨"Ollama /api/generate returned ".data,
        ": ".data ++ raw.data.take 300, by simp [List.append_assoc]⟩
    unfold genErrorMessage
    by_cases hc : (status = 404 && containsSub raw.data ("not found".data)) = true
    · simpa [hc, String.data_append] using
        subExtR ("\nPull a model first, e.g.: ollama pull " ++ model ++
          ". Or set OLLAMA_MODEL to a model you have.").data hbase
    · simpa [hc] using hbase
  · have hbase : raw.data.take 300 <:+:
        ("Ollama /api/generate returned " ++ toString status ++ ": " ++
          String.mk (raw.data.take 300)).data := by
      simp only [String.data_append, List.append_assoc]
      exact ⟨"Ollama /api/generate returned ".data ++ (toString status).data ++ ": ".data,
        [], by simp [List.append_assoc]⟩
    unfold genErrorMessage
    by_cases hc : (status = 404 && containsSub raw.data ("not found".data)) = true
    · simpa [hc, String.data_append] using
        subExtR ("\nPull a model first, e.g.: ollama pull " ++ model ++
          ". Or set OLLAMA_MODEL to a model you have.").data hbase
    · rw [if_neg hc]; exact hbase
  · exact List.length_take_le 300 raw.data
  · intro h404 hnf
    unfold genErrorMessage
    have hc : (status = 404 && containsSub raw.data ("not found".data)) = true := by
      simp [h404, hnf]
    rw [if_pos hc]
    simp only [String.data_append, List.append_assoc]
    refine ⟨("Ollama /api/generate returned ").data ++ (toString status).data ++
      ": ".data ++ raw.data.take 300 ++ ['\n'], [], ?_⟩
    have hsplit : ("\nPull a model first, e.g.: ollama pull ").data =
        '\n' :: ("Pull a model first, e.g.: ollama pull ").data := by decide
    simp [hsplit, List.append_assoc]

/-- C6 witness: concrete 404 with a body mentioning "not found". -/
theorem C6_generate_error_witness :
    ∃ msg, callOllamaGenerate "llama3.2" 404 "model llama3.2 not found"
        (ParsedBody.success none) = Except.error msg
      ∧ (toString 404).data <:+: msg.data
      ∧ ("model llama3.2 not found").data.take 300 <:+: msg.data
      ∧ (("model llama3.2 not found").data.take 300).length ≤ 300
      ∧ (404 = 404 → containsSub ("model llama3.2 not found").data ("not found".data) = true →
          ("Pull a model first, e.g.: ollama pull " ++ "llama3.2" ++
            ". Or set OLLAMA_MODEL to a model you have.").data <:+: msg.data) :=
  C6_generate_error "llama3.2" "model llama3.2 not found" 404
    (ParsedBody.success none) (by decide)

/-- C8: the reachability probe resolves `true` exactly for HTTP responses
with status below 500, and resolves `false` (never rejects) for statuses
of 500 and above, for connection errors and for timeouts. -/
theorem C8_probe :
    (∀ s : Nat, s < 500 → isOllamaRunning (ProbeOutcome.response s) = true)
    ∧ (∀ s : Nat, 500 ≤ s → isOllamaRunning (ProbeOutcome.response s) = false)
    ∧ isOllamaRunning ProbeOutcome.connectionError = false
    ∧ isOllamaRunning ProbeOutcome.timedOut = false := by
  refine ⟨fun s h => ?_, fun s h => ?_, rfl, rfl⟩
  · simp [isOllamaRunning, h]
  · have h200 : s ≠ 200 := by omega
    have h500 : ¬ s < 500 := by omega
    simp [isOllamaRunning, h200, h500]

/-- C8 witness: a 404 response counts as reachable, a 503 response does
not. -/
theorem C8_probe_witness :
    isOllamaRunning (ProbeOutcome.response 404) = true
    ∧ isOllamaRunning (ProbeOutcome.response 503) = false :=
  ⟨C8_probe.1 404 (by omega), C8_probe.2.1 503 (by omega)⟩

/-- C9: the date-based output name has the shape
`YYMMDD.LastName.CL.CompanySlug` — a six-character date part, the trimmed
last name with an `Applicant` fallback when blank, and a company slug that
contains no white space and only word/hyphen characters, with a `Company`
fallback when the company is blank; "Big Company Pty Ltd" slugs to
"BigCompanyPtyLtd". -/
theorem C9_folder_name :
    (∀ (d : DateParts) (company lastName : String),
      10 ≤ d.year → d.month < 100 → d.day < 100 →
      ∃ dp ln cs : String,
        generateOutputFolderName d company lastName = dp ++ "." ++ ln ++ ".CL." ++ cs
        ∧ dp.length = 6
        ∧ (∀ c ∈ cs.data, jsWhitespace c = false)
        ∧ (∀ c ∈ cs.data, (wordChar c || c = '-') = true)
        ∧ (jsTrim lastName = "" → ln = "Applicant")
        ∧ (company = "" → cs = "Company"))
    ∧ companySlug "Big Company Pty Ltd" = "BigCompanyPtyLtd"
    ∧ generateOutputFolderName ⟨2026, 10, 11⟩ "Big Company Pty Ltd" "Doe" =
        "261011.Doe.CL.BigCompanyPtyLtd"
    ∧ generateOutputFolderName ⟨2026, 10, 11⟩ "" "  " = "261011.Applicant.CL.Company" := by
  refine ⟨?_, by decide, by decide, by decide⟩
  intro d company lastName hy1 hm hd
  have hylen : 2 ≤ (toString d.year).length := repr_len_ge_two hy1
  have hmlen : (toString d.month).length ≤ 2 := by
    have : ∀ m, m < 100 → (toString m).length ≤ 2 := by decide
    exact this d.month hm
  have hdlen : (toString d.day).length ≤ 2 := by
    have : ∀ m, m < 100 → (toString m).length ≤ 2 := by decide
    exact this d.day hd
  refine ⟨sliceLastTwo (toString d.year) ++ padStart2 (toString d.month) ++
      padStart2 (toString d.day),
    fallbackIfEmpty (jsTrim lastName) "Applicant", companySlug company,
    ?_, ?_, ?_, ?_, ?_, ?_⟩
  · simp [generateOutputFolderName, String.append_assoc]
  · have hpad : ∀ s : String, s.length ≤ 2 → (padStart2 s).length = 2 := by
      intro s hs
      unfold padStart2
      by_cases hc : s.length < 2
      · rw [if_pos hc]
        rw [String.length_append]
        have hr : (String.mk (List.replicate (2 - s.length) '0')).length
            = 2 - s.length := by
          show (List.replicate (2 - s.length) '0').length = _
          exact List.length_replicate _ _
        omega
      · rw [if_neg hc]; omega
    have h1 : (sliceLastTwo (toString d.year)).length = 2 := by
      have h' : (toString d.year).data.length = (toString d.year).length := rfl
      show ((toString d.year).data.drop ((toString d.year).length - 2)).length = 2
      rw [List.length_drop, h']
      omega
    have h2 := hpad (toString d.month) hmlen
    have h3 := hpad (toString d.day) hdlen
    rw [String.length_append, String.length_append]
    omega
  · exact fun c hc => (companySlug_chars company c hc).1
  · exact fun c hc => (companySlug_chars company c hc).2
  · intro h; simp [fallbackIfEmpty, h]
  · intro h; subst h; decide

/-- Fully worked tiny-template instance: with a template consisting of the
resume placeholder alone, a blank job and a 3001-character resume snippet,
the built prompt is exactly the snippet's first 3000 characters. -/
theorem buildTiny_eq :
    (buildPromptFromTemplate (String.mk (placeholder "resumeSnippet")) jobBlank
        ctxLongResume).data = List.replicate 3000 'Z' := by
  have hne : ¬ (String.mk (List.replicate 3000 'Z') = "") := by
    intro h
    have h2 := congrArg String.data h
    rw [data_mk, show ("" : String).data = [] from rfl] at h2
    have h3 := congrArg List.length h2
    rw [List.length_replicate, List.length_nil] at h3
    exact absurd h3 (by omega)
  have hnil : ("" : String).data = [] := rfl
  have hjt : jsTrim "" = "" := rfl
  have hmin : min 3000 3001 = 3000 := rfl
  simp only [buildPromptFromTemplate, List.foldl_cons, List.foldl_nil, jobBlank,
    ctxLongResume, data_mk, hnil, List.take_nil, fallbackIfEmpty, hjt,
    List.take_replicate, hmin, hne, if_false, if_true, ne_eq, not_true, not_false_iff,
    ite_true, ite_false]
  have e1 : jsReplaceAll (placeholder "resumeSnippet") (placeholder "company") [] =
      placeholder "resumeSnippet" := by decide
  have e2 : jsReplaceAll (placeholder "resumeSnippet") (placeholder "positionName") [] =
      placeholder "resumeSnippet" := by decide
  have e3 : jsReplaceAll (placeholder "resumeSnippet") (placeholder "location") [] =
      placeholder "resumeSnippet" := by decide
  have e4 : jsReplaceAll (placeholder "resumeSnippet") (placeholder "type") [] =
      placeholder "resumeSnippet" := by decide
  have e5 : jsReplaceAll (placeholder "resumeSnippet") (placeholder "description") [] =
      placeholder "resumeSnippet" := by decide
  have e6 : jsReplaceAll (placeholder "resumeSnippet") (placeholder "applicantName")
      ['(', 'N', 'o', 't', ' ', 'p', 'r', 'o', 'v', 'i', 'd', 'e', 'd', ')'] =
      placeholder "resumeSnippet" := by decide
  have e7 : jsReplaceAll (placeholder "resumeSnippet") (placeholder "resumeSnippet")
      (List.replicate 3000 'Z') = List.replicate 3000 'Z' :=
    replaceAll_self _ _ (by decide)
  have hph : placeholder "coverLetterSection" =
      '\x7b' :: ("\x7bcoverLetterSection\x7d\x7d".data) := by decide
  have e8 : jsReplaceAll (List.replicate 3000 'Z') (placeholder "coverLetterSection") [] =
      List.replicate 3000 'Z' := by
    show replaceAllGo (placeholder "coverLetterSection") []
      (List.replicate 3000 'Z').length (List.replicate 3000 'Z') = _
    rw [hph]
    exact replaceAllGo_no_head '\x7b' _ [] _ _
      (fun c hc => by rw [List.eq_of_mem_replicate hc]; decide)
  rw [e1, e2, e3, e4, e5, e6, e7, e8]

/-- C1: the prompt depends on at most the first 12000 characters of the
description and the first 3000 characters of the resume snippet — both are
truncated before substitution, for every template; the default template
carries both placeholders; and for a resume snippet of 3001 characters the
built prompt contains the snippet's first 3000 characters but not its
first 3001. -/
theorem C1_prompt_truncation :
    (∀ (template : String) (job : Job) (context : GenContext),
      buildPromptFromTemplate template job context =
        buildPromptFromTemplate template
          { job with description := String.mk (List.take 12000 job.description.data) }
          { context with
              resumeSnippet := String.mk (List.take 3000 context.resumeSnippet.data) })
    ∧ containsSub DEFAULT_PROMPT_TEMPLATE.data (placeholder "description") = true
    ∧ containsSub DEFAULT_PROMPT_TEMPLATE.data (placeholder "resumeSnippet") = true
    ∧ List.replicate 3000 'Z' <:+:
        (buildPromptFromTemplate (String.mk (placeholder "resumeSnippet")) jobBlank
          ctxLongResume).data
    ∧ ¬ (List.replicate 3001 'Z' <:+:
        (buildPromptFromTemplate (String.mk (placeholder "resumeSnippet")) jobBlank
          ctxLongResume).data) := by
  refine ⟨?_, by decide, by decide, ?_, ?_⟩
  · intro template job context
    simp only [buildPromptFromTemplate, data_mk, List.take_take, min_self]
  · rw [buildTiny_eq]
  · rw [buildTiny_eq]
    intro h
    have hl := h.sublist.length_le
    rw [List.length_replicate, List.length_replicate] at hl
    omega

/-- C7: the substitution primitive inserts the replacement value verbatim —
whenever the pattern occurs, the replacement text (dollar signs,
backreference-like tokens and all) occurs in the output — and the prompt
built from the default template for a description full of `$`-tokens
contains that description unchanged. -/
theorem C7_literal_replacement :
    (∀ (l pat rep : List Char), pat ≠ [] → pat <:+: l →
      rep <:+: jsReplaceAll l pat rep)
    ∧ "Pay: $100k with $& and $1 kept.".data <:+:
        (buildPromptFromTemplate DEFAULT_PROMPT_TEMPLATE jobDollar ctxBlank).data := by
  constructor
  · intro l pat rep hp hin
    exact replaceAllGo_rep_sub pat rep hp l.length l (Nat.le_refl _) hin
  · decide

/-- C7 witness: a replacement carrying `$&` and `$1` lands verbatim. -/
theorem C7_literal_replacement_witness :
    placeholder "x" ≠ [] ∧ placeholder "x" <:+: placeholder "x"
    ∧ "$& and $1".data <:+:
        jsReplaceAll (placeholder "x") (placeholder "x") ("$& and $1".data) :=
  ⟨by decide, List.infix_refl _,
    C7_literal_replacement.1 _ _ _ (by decide) (List.infix_refl _)⟩

/-- C9 witness: concrete date, company and last name. -/
theorem C9_folder_name_witness :
    ∃ dp ln cs : String,
      generateOutputFolderName ⟨2026, 10, 11⟩ "Acme Corp" " Doe " =
        dp ++ "." ++ ln ++ ".CL." ++ cs
      ∧ dp.length = 6
      ∧ (∀ c ∈ cs.data, jsWhitespace c = false)
      ∧ (∀ c ∈ cs.data, (wordChar c || c = '-') = true)
      ∧ (jsTrim " Doe " = "" → ln = "Applicant")
      ∧ ("Acme Corp" = "" → cs = "Company") :=
  C9_folder_name.1 ⟨2026, 10, 11⟩ "Acme Corp" " Doe "
    (by decide) (by decide) (by decide)


theorem dropWhile_head_false (p : Char → Bool) :
    ∀ (l : List Char) (c : Char) (t : List Char), l.dropWhile p = c :: t → p c = false := by
  intro l
  induction l with
  | nil => intro c t h; simp [List.dropWhile] at h
  | cons a l ih =>
    intro c t h
    rw [List.dropWhile_cons] at h
    by_cases ha : p a = true
    · rw [if_pos ha] at h; exact ih c t h
    · rw [if_neg ha] at h
      have : a = c := List.head_eq_of_cons_eq h
      rw [← this]
      exact Bool.eq_false_iff.mpr ha

theorem trimEndL_decomp (l : List Char) :
    ∃ r, l = trimEndL l ++ r ∧ ∀ c ∈ r, jsWhitespace c = true := by
  refine ⟨(l.reverse.takeWhile jsWhitespace).reverse, ?_, ?_⟩
  · have h := List.takeWhile_append_dropWhile jsWhitespace l.reverse
    have h2 := congrArg List.reverse h
    rw [List.reverse_append, List.reverse_reverse] at h2
    exact h2.symm
  · intro c hc
    rw [List.mem_reverse] at hc
    exact List.mem_takeWhile_imp hc

theorem trimEndL_last (l : List Char) :
    trimEndL l = [] ∨ ∃ t c, trimEndL l = t ++ [c] ∧ jsWhitespace c = false := by
  unfold trimEndL
  cases hd : l.reverse.dropWhile jsWhitespace with
  | nil => exact Or.inl rfl
  | cons c t =>
    refine Or.inr ⟨t.reverse, c, ?_, dropWhile_head_false jsWhitespace _ c t hd⟩
    rw [List.reverse_cons]

theorem trimEndL_concat_nonws {c : Char} (l : List Char) (h : jsWhitespace c = false) :
    trimEndL (l ++ [c]) = l ++ [c] := by
  unfold trimEndL
  rw [List.reverse_append]
  show ((c :: l.reverse).dropWhile jsWhitespace).reverse = _
  rw [List.dropWhile_cons, if_neg (by simp [h])]
  rw [List.reverse_cons, List.reverse_reverse]

theorem trimEndL_concat_nl (l : List Char) : trimEndL (l ++ ['\n']) = trimEndL l := by
  unfold trimEndL
  rw [List.reverse_append]
  show ((['\n'].reverse ++ l.reverse).dropWhile jsWhitespace).reverse = _
  show (('\n' :: l.reverse).dropWhile jsWhitespace).reverse = _
  rw [List.dropWhile_cons, if_pos (by decide)]

theorem trimEndL_idem (l : List Char) : trimEndL (trimEndL l) = trimEndL l := by
  rcases trimEndL_last l with h | ⟨t, c, h, hc⟩
  · rw [h]; rfl
  · rw [h]; exact trimEndL_concat_nonws t hc

theorem trimStartL_head (l : List Char) :
    trimStartL l = [] ∨ ∃ c t, trimStartL l = c :: t ∧ jsWhitespace c = false := by
  unfold trimStartL
  cases hd : l.dropWhile jsWhitespace with
  | nil => exact Or.inl rfl
  | cons c t => exact Or.inr ⟨c, t, rfl, dropWhile_head_false jsWhitespace l c t hd⟩

theorem trimStartL_cons_nonws {c : Char} (l : List Char) (h : jsWhitespace c = false) :
    trimStartL (c :: l) = c :: l := by
  unfold trimStartL
  rw [List.dropWhile_cons, if_neg (by simp [h])]

theorem mem_trimEndL {a : Char} {l : List Char} (h : a ∈ trimEndL l) : a ∈ l := by
  obtain ⟨r, hr, _⟩ := trimEndL_decomp l
  rw [hr]
  exact List.mem_append_left r h

theorem mem_trimStartL {a : Char} {l : List Char} (h : a ∈ trimStartL l) : a ∈ l :=
  (List.dropWhile_suffix jsWhitespace).subset h

theorem mem_trimL {a : Char} {l : List Char} (h : a ∈ trimL l) : a ∈ l :=
  mem_trimEndL (mem_trimStartL h)

theorem trimL_concat_nl (l : List Char) : trimL (l ++ ['\n']) = trimL l := by
  unfold trimL
  rw [trimEndL_concat_nl]


theorem collapseGo_sublist : ∀ (l : List Char) (k : Nat), List.Sublist (collapseGo k l) l := by
  intro l
  induction l with
  | nil => intro k; simp [collapseGo]
  | cons c t ih =>
    intro k
    show List.Sublist (if c = '\n' then
        if k < 2 then '\n' :: collapseGo (k + 1) t else collapseGo (k + 1) t
      else c :: collapseGo 0 t) (c :: t)
    by_cases hc : c = '\n'
    · rw [if_pos hc]
      by_cases hk : k < 2
      · rw [if_pos hk, hc]
        exact List.Sublist.cons₂ '\n' (ih (k + 1))
      · rw [if_neg hk]
        exact List.Sublist.cons c (ih (k + 1))
    · rw [if_neg hc]
      exact List.Sublist.cons₂ c (ih 0)

theorem mem_collapseGo {a : Char} {l : List Char} {k : Nat}
    (h : a ∈ collapseGo k l) : a ∈ l :=
  (collapseGo_sublist l k).subset h

theorem collapseGo_cons_ne {c : Char} (t : List Char) (k : Nat) (hc : ¬ c = '\n') :
    collapseGo k (c :: t) = c :: collapseGo 0 t := by
  show (if c = '\n' then
      if k < 2 then '\n' :: collapseGo (k + 1) t else collapseGo (k + 1) t
    else c :: collapseGo 0 t) = _
  rw [if_neg hc]

theorem collapseGo_cons_nl (t : List Char) (k : Nat) :
    collapseGo k ('\n' :: t) =
      if k < 2 then '\n' :: collapseGo (k + 1) t else collapseGo (k + 1) t := by
  show (if ('\n' : Char) = '\n' then
      if k < 2 then '\n' :: collapseGo (k + 1) t else collapseGo (k + 1) t
    else '\n' :: collapseGo 0 t) = _
  rw [if_pos rfl]

theorem collapse_noThree : ∀ (l : List Char) (k : Nat),
    (¬ ['\n', '\n', '\n'] <:+: collapseGo k l)
    ∧ (1 ≤ k → ¬ ['\n', '\n'] <+: collapseGo k l)
    ∧ (2 ≤ k → ¬ ['\n'] <+: collapseGo k l) := by
  intro l
  induction l with
  | nil =>
    intro k
    have hnil : collapseGo k [] = [] := by cases k <;> rfl
    rw [hnil]
    refine ⟨fun h => ?_, fun _ h => ?_, fun _ h => ?_⟩
    · exact absurd (List.eq_nil_of_infix_nil h) (by decide)
    · obtain ⟨u, hu⟩ := h
      exact absurd hu (by simp)
    · obtain ⟨u, hu⟩ := h
      exact absurd hu (by simp)
  | cons c t ih =>
    intro k
    by_cases hc : c = '\n'
    · subst hc
      rw [collapseGo_cons_nl]
      by_cases hk : k < 2
      · rw [if_pos hk]
        refine ⟨?_, ?_, ?_⟩
        · intro h
          rcases infix_cons_cases h with hp | hi
          · rw [List.cons_prefix_cons] at hp
            exact (ih (k + 1)).2.1 (by omega) hp.2
          · exact (ih (k + 1)).1 hi
        · intro hk1 h
          rw [List.cons_prefix_cons] at h
          exact (ih (k + 1)).2.2 (by omega) h.2
        · intro hk2 _
          omega
      · rw [if_neg hk]
        exact ⟨(ih (k + 1)).1, fun _ => (ih (k + 1)).2.1 (by omega),
          fun _ => (ih (k + 1)).2.2 (by omega)⟩
    · rw [collapseGo_cons_ne t k hc]
      refine ⟨?_, fun _ h => ?_, fun _ h => ?_⟩
      · intro h
        rcases infix_cons_cases h with hp | hi
        · rw [List.cons_prefix_cons] at hp
          exact hc hp.1.symm
        · exact (ih 0).1 hi
      · rw [List.cons_prefix_cons] at h
        exact hc h.1.symm
      · rw [List.cons_prefix_cons] at h
        exact hc h.1.symm

theorem collapse_fix : ∀ l : List Char,
    ((¬ ['\n', '\n', '\n'] <:+: l) → collapseGo 0 l = l)
    ∧ ((¬ ['\n', '\n', '\n'] <:+: l) → (¬ ['\n', '\n'] <+: l) → collapseGo 1 l = l)
    ∧ ((¬ ['\n', '\n', '\n'] <:+: l) → (¬ ['\n'] <+: l) → collapseGo 2 l = l) := by
  intro l
  induction l with
  | nil => exact ⟨fun _ => rfl, fun _ _ => rfl, fun _ _ => rfl⟩
  | cons c t ih =>
    have hmono : ∀ x : List Char, x <:+: t → x <:+: c :: t :=
      fun x hx => List.infix_cons hx
    by_cases hc : c = '\n'
    · subst hc
      refine ⟨?_, ?_, ?_⟩
      · intro h3
        rw [collapseGo_cons_nl, if_pos (by omega)]
        have ht3 : ¬ ['\n', '\n', '\n'] <:+: t := fun hx => h3 (hmono _ hx)
        have ht2 : ¬ ['\n', '\n'] <+: t := by
          intro hx
          exact h3 ⟨[], t.drop 2, by
            obtain ⟨u, hu⟩ := hx
            simp [← hu]⟩
        rw [(ih.2.1) ht3 ht2]
      · intro h3 h2
        rw [collapseGo_cons_nl, if_pos (by omega)]
        have ht3 : ¬ ['\n', '\n', '\n'] <:+: t := fun hx => h3 (hmono _ hx)
        have ht1 : ¬ ['\n'] <+: t := by
          intro hx
          apply h2
          rw [List.cons_prefix_cons]
          exact ⟨rfl, hx⟩
        rw [(ih.2.2) ht3 ht1]
      · intro _ h1
        exact absurd (by rw [List.cons_prefix_cons]; exact ⟨rfl, List.nil_prefix⟩) h1
    · have hstep : ∀ k, collapseGo k (c :: t) = c :: collapseGo 0 t :=
        fun k => collapseGo_cons_ne t k hc
      have ht3 : (¬ ['\n', '\n', '\n'] <:+: c :: t) → ¬ ['\n', '\n', '\n'] <:+: t :=
        fun h3 hx => h3 (hmono _ hx)
      refine ⟨fun h3 => ?_, fun h3 _ => ?_, fun h3 _ => ?_⟩ <;>
        rw [hstep, (ih.1) (ht3 h3)]


theorem noThree_concat_nl (e : List Char) (he : ¬ ['\n', '\n', '\n'] <:+: e)
    (hlast : e.getLast? ≠ some '\n') :
    ¬ ['\n', '\n', '\n'] <:+: e ++ ['\n'] := by
  intro h
  obtain ⟨s, u, hsu⟩ := h
  rcases List.eq_nil_or_concat u with rfl | ⟨u', x, rfl⟩
  · have h1 : (s ++ ['\n', '\n']) ++ ['\n'] = e ++ ['\n'] := by
      rw [← hsu]; simp
    have h2 := congrArg List.dropLast h1
    rw [List.dropLast_concat, List.dropLast_concat] at h2
    apply hlast
    rw [← h2, show s ++ ['\n', '\n'] = (s ++ ['\n']) ++ ['\n'] by simp]
    exact List.getLast?_concat _
  · have h1 : (s ++ ['\n', '\n', '\n'] ++ u') ++ [x] = e ++ ['\n'] := by
      rw [← hsu]; simp [List.concat_eq_append]
    have h2 := congrArg List.dropLast h1
    rw [List.dropLast_concat, List.dropLast_concat] at h2
    exact he ⟨s, u', h2⟩

theorem single_trailing (e : List Char) (hlast : e.getLast? ≠ some '\n') :
    ¬ ['\n', '\n'] <:+ (e ++ ['\n']) := by
  intro h
  obtain ⟨s, hs⟩ := h
  have h1 : (s ++ ['\n']) ++ ['\n'] = e ++ ['\n'] := by rw [← hs]; simp
  have h2 := congrArg List.dropLast h1
  rw [List.dropLast_concat, List.dropLast_concat] at h2
  apply hlast
  rw [← h2]
  exact List.getLast?_concat _

theorem trimEndL_getLast_ne_nl (c : List Char) : (trimEndL c).getLast? ≠ some '\n' := by
  rcases trimEndL_last c with h0 | ⟨t', cc, hec, hws⟩
  · rw [h0]; simp
  · rw [hec, List.getLast?_concat]
    intro hx
    injection hx with hx
    rw [hx] at hws
    exact absurd hws (by decide)

theorem trimEndL_noThree {c : List Char} (hcn : ¬ ['\n', '\n', '\n'] <:+: c) :
    ¬ ['\n', '\n', '\n'] <:+: trimEndL c := by
  intro hx
  obtain ⟨r, hr, _⟩ := trimEndL_decomp c
  exact hcn (by rw [hr]; exact subExtR r hx)

theorem finish_noThree (t : List Char) :
    ¬ ['\n', '\n', '\n'] <:+:
      (trimEndL (collapseGo 0 t) ++ (if collapseGo 0 t = [] then [] else ['\n'])) := by
  have hcn : ¬ ['\n', '\n', '\n'] <:+: collapseGo 0 t := (collapse_noThree t 0).1
  by_cases hnil : collapseGo 0 t = []
  · rw [if_pos hnil, hnil]
    intro h
    rw [show trimEndL ([] : List Char) ++ ([] : List Char) = [] from rfl] at h
    exact absurd (List.eq_nil_of_infix_nil h) (by decide)
  · rw [if_neg hnil]
    exact noThree_concat_nl _ (trimEndL_noThree hcn) (trimEndL_getLast_ne_nl _)

theorem finish_trailing (t : List Char)
    (hne : trimEndL (collapseGo 0 t) ++ (if collapseGo 0 t = [] then [] else ['\n']) ≠ []) :
    (trimEndL (collapseGo 0 t) ++
        (if collapseGo 0 t = [] then [] else ['\n'])).getLast? = some '\n'
    ∧ ¬ ['\n', '\n'] <:+
      (trimEndL (collapseGo 0 t) ++ (if collapseGo 0 t = [] then [] else ['\n'])) := by
  by_cases hnil : collapseGo 0 t = []
  · exfalso
    apply hne
    rw [if_pos hnil, hnil]
    rfl
  · rw [if_neg hnil] at *
    exact ⟨List.getLast?_concat _, single_trailing _ (trimEndL_getLast_ne_nl _)⟩

theorem str_eq_of_data {a b : String} (h : a.data = b.data) : a = b := by
  cases a
  cases b
  exact congrArg String.mk h

/-- C4: the post-processor is total — a non-string input yields the empty
string, no output contains a run of three or more newlines, a non-empty
output ends with exactly one trailing newline, and inputs that normalize
to nothing (the empty string, pure white space) yield the empty string. -/
theorem C4_postprocess_total :
    postProcessCoverLetterText none = ""
    ∧ (∀ s : String, ¬ ['\n', '\n', '\n'] <:+: (postProcessCoverLetterText (some s)).data)
    ∧ (∀ s : String, postProcessCoverLetterText (some s) ≠ "" →
        (postProcessCoverLetterText (some s)).data.getLast? = some '\n'
        ∧ ¬ ['\n', '\n'] <:+ (postProcessCoverLetterText (some s)).data)
    ∧ postProcessCoverLetterText (some "") = ""
    ∧ postProcessCoverLetterText (some "   \n\t  ") = "" := by
  refine ⟨rfl, ?_, ?_, by decide, by decide⟩
  · intro s
    simp only [postProcessCoverLetterText, postProcessString, data_mk, collapseNewlines]
    exact finish_noThree _
  · intro s hne
    have hne' : (postProcessCoverLetterText (some s)).data ≠ [] := by
      intro hx
      exact hne (str_eq_of_data (by rw [hx]))
    simp only [postProcessCoverLetterText, postProcessString, data_mk,
      collapseNewlines] at hne' ⊢
    exact finish_trailing _ hne'

/-- C4 witness: a concrete input with a four-newline run. -/
theorem C4_postprocess_total_witness :
    postProcessCoverLetterText (some "a\n\n\n\nb") ≠ ""
    ∧ (postProcessCoverLetterText (some "a\n\n\n\nb")).data.getLast? = some '\n'
    ∧ ¬ ['\n', '\n'] <:+ (postProcessCoverLetterText (some "a\n\n\n\nb")).data := by
  have h := C4_postprocess_total.2.2.1 "a\n\n\n\nb" (by decide)
  exact ⟨by decide, h.1, h.2⟩


theorem closeFenceHere_ne {c : Char} (t : List Char) (h : ¬ c = '`') :
    closeFenceHere (c :: t) = false := by
  unfold closeFenceHere
  split
  · next rest heq => exact absurd (List.head_eq_of_cons_eq heq) h
  · rfl

theorem matchFenceAt_ne {c : Char} (t : List Char) (h : ¬ c = '`') :
    matchFenceAt (c :: t) = none := by
  unfold matchFenceAt
  split
  · next rest heq => exact absurd (List.head_eq_of_cons_eq heq) h
  · rfl

theorem skipLine_subset : ∀ (l t : List Char), skipLine l = some t → ∀ c ∈ t, c ∈ l := by
  intro l
  induction l with
  | nil => intro t h; exact absurd h (by simp [skipLine])
  | cons a l ih =>
    intro t h c hc
    rw [show skipLine (a :: l) = if a = '\n' then some l else skipLine l from rfl] at h
    by_cases ha : a = '\n'
    · rw [if_pos ha] at h
      injection h with h
      subst h
      exact List.mem_cons_of_mem a hc
    · rw [if_neg ha] at h
      exact List.mem_cons_of_mem a (ih t h c hc)

theorem fenceSearch_none : ∀ (f : Nat) (l : List Char), (∀ c ∈ l, ¬ c = '`') →
    fenceSearch f l = none := by
  intro f
  induction f with
  | zero => intro l _; rfl
  | succ f ih =>
    intro l h
    have hm : matchFenceAt l = none := by
      cases l with
      | nil => rfl
      | cons c t => exact matchFenceAt_ne t (h c (List.mem_cons_self c t))
    show (match matchFenceAt l with
      | some g => some g
      | none => match skipLine l with
        | some t => fenceSearch f t
        | none => none) = none
    rw [hm]
    cases hsl : skipLine l with
    | none => rfl
    | some t => exact ih t (fun c hc => h c (skipLine_subset l t hsl c hc))

theorem findClose_bt : ∀ (xs acc : List Char) (fuel : Nat),
    (∀ c ∈ xs, ¬ c = '`') → xs.length + 2 ≤ fuel →
    findCloseGo fuel acc (xs ++ '\n' :: '`' :: '`' :: '`' :: []) =
      some (acc.reverse ++ (xs ++ ['\n'])) := by
  intro xs
  induction xs with
  | nil =>
    intro acc fuel _ hf
    obtain ⟨f, rfl⟩ : ∃ f, fuel = f + 2 := ⟨fuel - 2, by omega⟩
    show (if closeFenceHere ('\n' :: '`' :: '`' :: '`' :: []) then some acc.reverse
      else findCloseGo (f + 1) ('\n' :: acc) ('`' :: '`' :: '`' :: [])) = _
    rw [if_neg (by decide)]
    show (if closeFenceHere ('`' :: '`' :: '`' :: []) then some ('\n' :: acc).reverse
      else findCloseGo f ('`' :: '\n' :: acc) ('`' :: '`' :: [])) = _
    rw [if_pos (by decide), List.reverse_cons]
    simp
  | cons x xs ih =>
    intro acc fuel hx hf
    obtain ⟨f, rfl⟩ : ∃ f, fuel = f + 1 := ⟨fuel - 1, by omega⟩
    show (if closeFenceHere (x :: (xs ++ '\n' :: '`' :: '`' :: '`' :: [])) then
        some acc.reverse
      else findCloseGo f (x :: acc) (xs ++ '\n' :: '`' :: '`' :: '`' :: [])) = _
    rw [closeFenceHere_ne _ (hx x (List.mem_cons_self x xs)), if_neg (by simp)]
    rw [ih (x :: acc) f (fun c hc => hx c (List.mem_cons_of_mem x hc))
      (by simp at hf ⊢; omega)]
    rw [List.reverse_cons]
    simp

theorem matchFenceAt_wrapped (X : List Char) (hX : ∀ c ∈ X, ¬ c = '`') :
    matchFenceAt ('`' :: '`' :: '`' :: '\n' :: (X ++ '\n' :: '`' :: '`' :: '`' :: [])) =
      some (X ++ ['\n']) := by
  show findCloseGo ((X ++ '\n' :: '`' :: '`' :: '`' :: []).length + 1) []
      (X ++ '\n' :: '`' :: '`' :: '`' :: []) = some (X ++ ['\n'])
  rw [findClose_bt X [] _ hX (by simp)]
  rfl

theorem fenceMatch_wrapped (X : List Char) (hX : ∀ c ∈ X, ¬ c = '`') :
    fenceMatch ('`' :: '`' :: '`' :: '\n' :: (X ++ '\n' :: '`' :: '`' :: '`' :: [])) =
      some (X ++ ['\n']) := by
  show (match matchFenceAt ('`' :: '`' :: '`' :: '\n' ::
        (X ++ '\n' :: '`' :: '`' :: '`' :: [])) with
    | some g => some g
    | none =>
      match skipLine ('`' :: '`' :: '`' :: '\n' ::
          (X ++ '\n' :: '`' :: '`' :: '`' :: [])) with
      | some t => fenceSearch (('`' :: '`' :: '`' :: '\n' ::
          (X ++ '\n' :: '`' :: '`' :: '`' :: [])).length) t
      | none => none) = some (X ++ ['\n'])
  rw [matchFenceAt_wrapped X hX]


theorem wrapped_data (X : String) :
    ("```\n" ++ X ++ "\n```").data =
      '`' :: '`' :: '`' :: '\n' :: (X.data ++ '\n' :: '`' :: '`' :: '`' :: []) := by
  rw [String.data_append, String.data_append]
  rw [show ("```\n" : String).data = ['`', '`', '`', '\n'] from rfl,
    show ("\n```" : String).data = ['\n', '`', '`', '`'] from rfl]
  simp

theorem trimL_wrapped (X : String) :
    trimL ('`' :: '`' :: '`' :: '\n' :: (X.data ++ '\n' :: '`' :: '`' :: '`' :: [])) =
      '`' :: '`' :: '`' :: '\n' :: (X.data ++ '\n' :: '`' :: '`' :: '`' :: []) := by
  have hsplit : '`' :: '`' :: '`' :: '\n' :: (X.data ++ '\n' :: '`' :: '`' :: '`' :: []) =
      ('`' :: '`' :: '`' :: '\n' :: (X.data ++ ['\n', '`', '`'])) ++ ['`'] := by
    simp
  unfold trimL
  rw [hsplit, trimEndL_concat_nonws _ (by decide)]
  rw [← hsplit]
  exact trimStartL_cons_nonws _ (by decide)

/-- C3 counterexample: the trimmed input "Hello" + fenced block does not
start with a fence (it is not entirely wrapped), yet post-processing keeps
only the fenced content and drops "Hello". -/
theorem C3_fence_strip_cex :
    postProcessCoverLetterText (some "Hello\n```\nX\n```") = "X\n"
    ∧ ¬ ("```".data <+: trimL ("Hello\n```\nX\n```").data)
    ∧ ¬ ("Hello".data <:+: ("X\n").data) := by
  refine ⟨by decide, by decide, by decide⟩

/-- C3 amended: post-processing strips the first line-anchored fenced block
and keeps only its (trimmed, then normalized) content — so a text entirely
wrapped in one fence has the wrapper stripped and the inner content kept,
and wrapping any backtick-free text in a fence post-processes exactly like
the bare text; but text outside the matched block is discarded, not kept. -/
theorem C3_fence_strip :
    (∀ X : String, (∀ c ∈ X.data, ¬ c = '`') →
      postProcessCoverLetterText (some ("```\n" ++ X ++ "\n```")) =
        postProcessCoverLetterText (some X))
    ∧ postProcessCoverLetterText (some "```\nX\n```") = "X\n" := by
  constructor
  · intro X hX
    simp only [postProcessCoverLetterText, postProcessString, data_mk]
    rw [wrapped_data X, trimL_wrapped X]
    rw [fenceMatch_wrapped X.data hX]
    have hfm2 : fenceMatch (trimL X.data) = none :=
      fenceSearch_none _ _ (fun c hc => hX c (mem_trimL hc))
    rw [hfm2]
    dsimp only
    rw [trimL_concat_nl]
  · decide

/-- C3 witness: wrapping the backtick-free text "X" in a fence
post-processes exactly like "X" itself. -/
theorem C3_fence_strip_witness :
    postProcessCoverLetterText (some ("```\n" ++ "X" ++ "\n```")) =
      postProcessCoverLetterText (some "X") :=
  C3_fence_strip.1 "X" (by decide)


/-- C10 counterexample: an input whose once-processed output still carries
a full fenced block, so a second pass strips again. -/
theorem C10_idem_cex :
    postProcessCoverLetterText (some "```\n```js\nA\n```   ```") = "```js\nA\n```\n"
    ∧ postProcessCoverLetterText (some "```js\nA\n```\n") = "A\n"
    ∧ ("A\n" : String) ≠ "```js\nA\n```\n" := by
  refine ⟨by decide, by decide, by decide⟩

/-- C10 amended: the post-processor is idempotent on every input that
contains no backtick (so no fence stripping is involved); it is not
idempotent in general. -/
theorem C10_idem :
    ∀ s : String, (∀ c ∈ s.data, ¬ c = '`') →
      postProcessCoverLetterText (some (postProcessCoverLetterText (some s))) =
        postProcessCoverLetterText (some s) := by
  intro s hs
  have hfm1 : fenceMatch (trimL s.data) = none :=
    fenceSearch_none _ _ (fun c hc => hs c (mem_trimL hc))
  have hpost1 : postProcessCoverLetterText (some s) =
      String.mk (trimEndL (collapseGo 0 (trimL s.data)) ++
        (if collapseGo 0 (trimL s.data) = [] then [] else ['\n'])) := by
    simp only [postProcessCoverLetterText, postProcessString, collapseNewlines, hfm1]
  rw [hpost1]
  by_cases hnil : collapseGo 0 (trimL s.data) = []
  · rw [if_pos hnil, hnil]
    decide
  · rw [if_neg hnil]
    have hxne : trimL s.data ≠ [] := by
      intro h
      apply hnil
      rw [h]
      rfl
    obtain ⟨ch, ct, hct, hch⟩ : ∃ ch ct, trimL s.data = ch :: ct ∧
        jsWhitespace ch = false := by
      rcases trimStartL_head (trimEndL s.data) with h | ⟨ch, ct, h, hw⟩
      · exact absurd h hxne
      · exact ⟨ch, ct, h, hw⟩
    have hchnl : ¬ ch = '\n' := by
      intro h
      rw [h] at hch
      exact absurd hch (by decide)
    have hc1cons : collapseGo 0 (trimL s.data) = ch :: collapseGo 0 ct := by
      rw [hct]
      exact collapseGo_cons_ne ct 0 hchnl
    have he1ne : trimEndL (collapseGo 0 (trimL s.data)) ≠ [] := by
      intro h
      have hall : ∀ cc ∈ (collapseGo 0 (trimL s.data)).reverse, jsWhitespace cc = true := by
        rw [← List.dropWhile_eq_nil_iff]
        have h2 := congrArg List.reverse h
        rw [show ([] : List Char).reverse = [] from rfl] at h2
        unfold trimEndL at h2
        rwa [List.reverse_reverse] at h2
      have hmem : ch ∈ (collapseGo 0 (trimL s.data)).reverse := by
        rw [List.mem_reverse, hc1cons]
        exact List.mem_cons_self _ _
      have := hall ch hmem
      rw [hch] at this
      exact absurd this (by decide)
    obtain ⟨t1, ht1⟩ : ∃ t1, trimEndL (collapseGo 0 (trimL s.data)) = ch :: t1 := by
      obtain ⟨r, hr, _⟩ := trimEndL_decomp (collapseGo 0 (trimL s.data))
      cases he : trimEndL (collapseGo 0 (trimL s.data)) with
      | nil => exact absurd he he1ne
      | cons a t1 =>
        refine ⟨t1, ?_⟩
        rw [he] at hr
        rw [hc1cons] at hr
        have hcha : ch = a := List.head_eq_of_cons_eq hr
        rw [hcha]
    have hbt_e1 : ∀ cc ∈ trimEndL (collapseGo 0 (trimL s.data)), ¬ cc = '`' :=
      fun cc hcc => hs cc (mem_trimL (mem_collapseGo (mem_trimEndL hcc)))
    have hn3e1 : ¬ ['\n', '\n', '\n'] <:+: trimEndL (collapseGo 0 (trimL s.data)) :=
      trimEndL_noThree (collapse_noThree (trimL s.data) 0).1
    have htrim2 : trimL (trimEndL (collapseGo 0 (trimL s.data)) ++ ['\n']) =
        trimEndL (collapseGo 0 (trimL s.data)) := by
      show trimStartL (trimEndL (trimEndL (collapseGo 0 (trimL s.data)) ++ ['\n'])) = _
      rw [trimEndL_concat_nl, trimEndL_idem, ht1]
      exact trimStartL_cons_nonws t1 hch
    have hfm2 : fenceMatch (trimL (trimEndL (collapseGo 0 (trimL s.data)) ++ ['\n'])) =
        none := by
      rw [htrim2]
      exact fenceSearch_none _ _ hbt_e1
    have hcol : collapseGo 0 (trimEndL (collapseGo 0 (trimL s.data))) =
        trimEndL (collapseGo 0 (trimL s.data)) :=
      (collapse_fix _).1 hn3e1
    simp only [postProcessCoverLetterText, postProcessString, data_mk,
      collapseNewlines, hfm2]
    rw [htrim2, hcol, trimEndL_idem]
    rw [if_neg he1ne]

/-- C10 witness: idempotence on a concrete backtick-free input with a run
of four newlines. -/
theorem C10_idem_witness :
    postProcessCoverLetterText (some (postProcessCoverLetterText (some "a\n\n\n\nb"))) =
      postProcessCoverLetterText (some "a\n\n\n\nb") :=
  C10_idem "a\n\n\n\nb" (by decide)

end JobSearcher
